import Mathlib

/-!
Verification development for the gatewayd core runtime.

This file gives a shallow embedding of the hook engine
(`NewHookConfig` / `AddHook` / `verify` / `RunHooks`), the upstream
client (`Close`), and the proxy (`Connect` / `Disconnect` /
`PassThrough` / `Reconnect`), and proves the spec-level properties
about them.  Go maps are embedded as association lists (insertion
overwrites, deletion removes every binding of the key, lookup takes
the first binding; the operations below keep keys unduplicated, so
the two views agree).  Go panics are embedded as explicit error
outcomes.  Logging is an effect the embedding drops.
-/

namespace GatewayD

/-! ## Association-list maps (the embedding of Go maps) -/

/-- First-match lookup in an association list, the embedding of a Go
map read (`m[k]`). -/
def alookup {κ α : Type} [DecidableEq κ] : List (κ × α) → κ → Option α
  | [], _ => none
  | kv :: rest, k => if kv.1 = k then some kv.2 else alookup rest k

/-- Remove every binding of `k`, the embedding of Go `delete(m, k)`. -/
def aerase {κ α : Type} [DecidableEq κ] (m : List (κ × α)) (k : κ) : List (κ × α) :=
  m.filter (fun kv => if kv.1 = k then false else true)

/-- Insert-or-overwrite, the embedding of a Go map write (`m[k] = v`). -/
def ainsert {κ α : Type} [DecidableEq κ] (m : List (κ × α)) (k : κ) (v : α) :
    List (κ × α) :=
  (k, v) :: aerase m k

/-- Apply `f` to the value bound to `k`, when one is present. -/
def amodify {κ α : Type} [DecidableEq κ] (m : List (κ × α)) (k : κ) (f : α → α) :
    List (κ × α) :=
  m.map (fun kv => if kv.1 = k then (kv.1, f kv.2) else kv)

/-! ## Envelopes (`Signature`) -/

/-- A dynamically typed envelope value (`interface{}` payloads that
appear in hook envelopes). -/
inductive Val : Type
  | vstr (s : String)
  | vnum (n : Int)
  | vbool (b : Bool)
  | vbytes (bs : List Nat)
  deriving DecidableEq, Repr

/-- `Signature` is Go's `map[string]interface{}`. -/
abbrev Sig := List (String × Val)

/-- Envelope key lookup. -/
def sigLookup (s : Sig) (k : String) : Option Val := alookup s k

/-- Whether a key is present in an envelope (`_, ok := params[key]`). -/
def sigHasKey (s : Sig) (k : String) : Bool := (sigLookup s k).isSome

/-- Embedding of `verify(params, returnVal)`: every key of the return
value must already be a key of `params`. -/
def verify (params returnVal : Sig) : Bool :=
  returnVal.all (fun kv => sigHasKey params kv.1)

/-! ## Hook registry -/

/-- Embedding of the `HookType` string constants. -/
inductive HookType : Type
  | OnConfigLoaded | OnNewLogger | OnNewPool | OnNewProxy | OnNewServer
  | OnSignal | OnRun | OnBooting | OnBooted | OnOpening | OnOpened
  | OnClosing | OnClosed | OnTraffic | OnIncomingTraffic | OnOutgoingTraffic
  | OnShutdown | OnTick | OnNewClient
  deriving DecidableEq, Repr

/-- The string value of each `HookType` constant. -/
def hookTypeName : HookType → String
  | .OnConfigLoaded => "onConfigLoaded"
  | .OnNewLogger => "onNewLogger"
  | .OnNewPool => "onNewPool"
  | .OnNewProxy => "onNewProxy"
  | .OnNewServer => "onNewServer"
  | .OnSignal => "onSignal"
  | .OnRun => "onRun"
  | .OnBooting => "onBooting"
  | .OnBooted => "onBooted"
  | .OnOpening => "onOpening"
  | .OnOpened => "onOpened"
  | .OnClosing => "onClosing"
  | .OnClosed => "onClosed"
  | .OnTraffic => "onTraffic"
  | .OnIncomingTraffic => "onIncomingTraffic"
  | .OnOutgoingTraffic => "onOutgoingTraffic"
  | .OnShutdown => "onShutdown"
  | .OnTick => "onTick"
  | .OnNewClient => "onNewClient"

/-- `HookDef`: an invoker, `func(Signature) Signature`. -/
abbrev HookDef := Sig → Sig

/-- Embedding of the verification `Policy` enumeration. -/
inductive Policy : Type
  | Ignore | Abort | Remove
  deriving DecidableEq, Repr

/-- Embedding of `HookConfig`; the zerolog logger is an effect sink
the embedding drops, and the `Verification` field is passed to
`RunHooks` as its `verification` parameter. -/
structure HookConfig : Type where
  hooks : List (HookType × List (Nat × HookDef))

/-- Embedding of `NewHookConfig()`: the outer map is allocated, the
inner maps are not. -/
def newHookConfig : HookConfig := ⟨[]⟩

/-- The argument of `AddHook` is an `interface{}`; the type assertion
`hook.(HookDef)` succeeds only for the `hdef` shape. -/
inductive HookArg : Type
  | hdef (f : HookDef)
  | other

/-- Embedding of `AddHook`.  The write `h.hooks[hookType][prio] = hookDef`
is performed on the inner map read from the outer map; when the outer
map has no entry for `hookType` the inner map is Go's nil map, and a
write to a nil map panics (the `Except.error` case). -/
def addHook (h : HookConfig) (hookType : HookType) (prio : Nat) (hook : HookArg) :
    Except String HookConfig :=
  match hook with
  | .other => .ok h
  | .hdef f =>
    match alookup h.hooks hookType with
    | none => .error "assignment to entry in nil map"
    | some inner => .ok ⟨ainsert h.hooks hookType (ainsert inner prio f)⟩

/-- Embedding of `GetHook`: a read of a missing outer key yields the
nil (empty) inner map. -/
def getHook (h : HookConfig) (hookType : HookType) : List (Nat × HookDef) :=
  (alookup h.hooks hookType).getD []

/-! ## RunHooks -/

/-- One row of an invocation trace: the priority invoked, the
envelope the invoker returned, and whether `verify` accepted it. -/
structure TEntry : Type where
  prio : Nat
  result : Sig
  accepted : Bool
  deriving DecidableEq, Repr

/-- The panic message built in each failure arm of `RunHooks`. -/
def panicText (hookType : HookType) (prio : Nat) (action : String) : String :=
  "Hook " ++ hookTypeName hookType ++ " (Prio " ++ toString prio ++
    ") returned invalid value, " ++ action

/-- Result of the `for idx, prio := range priorities` loop of
`RunHooks`: the outcome (`error` embeds a Go panic), the
`removeList`, the invocation trace, and whether the loop ended in the
early `return` of the `Abort` arm. -/
structure LoopOut : Type where
  out : Except String Sig
  removeList : List Nat
  trace : List TEntry
  early : Bool

/-- Embedding of the body of `RunHooks`' loop.  `first` tracks
`idx == 0`; `rv` is `returnVal` (initially the fresh empty map);
looking up a priority that is not in the inner map yields Go's nil
function, whose call panics (unreachable from `runHooks`). -/
def runLoop (inner : List (Nat × HookDef)) (hookType : HookType) (args : Sig)
    (pol : Policy) :
    List Nat → Bool → Sig → List Nat → List TEntry → LoopOut
  | [], _, rv, rl, tr => ⟨.ok rv, rl, tr, false⟩
  | p :: rest, first, rv, rl, tr =>
    match alookup inner p with
    | none => ⟨.error "invalid memory address or nil pointer dereference", rl, tr, false⟩
    | some f =>
      let result := f (if first then args else rv)
      let acc := verify args result
      let tr' := tr ++ [⟨p, result, acc⟩]
      if acc then
        runLoop inner hookType args pol rest false result rl tr'
      else
        match pol with
        | .Ignore =>
          if hookType = .OnConfigLoaded then
            ⟨.error (panicText hookType p "ignoring"), rl, tr', false⟩
          else
            runLoop inner hookType args pol rest false (if first then args else rv) rl tr'
        | .Abort =>
          if hookType = .OnConfigLoaded then
            ⟨.error (panicText hookType p "aborting"), rl, tr', false⟩
          else
            ⟨.ok (if first then args else rv), rl, tr', true⟩
        | .Remove =>
          if hookType = .OnConfigLoaded then
            ⟨.error (panicText hookType p "removing"), rl, tr', false⟩
          else
            runLoop inner hookType args pol rest false (if first then args else rv)
              (rl ++ [p]) tr'

/-- The full result of a `RunHooks` call: the returned envelope (or
the panic), the hook table after the `removeList` deletions, and the
invocation trace. -/
structure RunOut : Type where
  outcome : Except String Sig
  hooksAfter : List (HookType × List (Nat × HookDef))
  trace : List TEntry
  removed : List Nat

/-- The epilogue of `RunHooks`: on a panic the process dies with the
table untouched; on a normal return the priorities collected in the
`removeList` are deleted from the inner map for `hookType` — unless
the `Abort` arm returned early, which skips the deletion loop. -/
def mkRunOut (h : HookConfig) (hookType : HookType) (lo : LoopOut) : RunOut :=
  match lo.out with
  | .error m => ⟨.error m, h.hooks, lo.trace, lo.removeList⟩
  | .ok v =>
    if lo.early then ⟨.ok v, h.hooks, lo.trace, lo.removeList⟩
    else
      ⟨.ok v,
        lo.removeList.foldl (fun acc p => amodify acc hookType (fun im => aerase im p)) h.hooks,
        lo.trace, lo.removeList⟩

/-- Embedding of `RunHooks`.  The priorities of the inner map are
sorted ascending (`sort.SliceStable` with `<`; the keys of a Go map
are distinct, so any stable sort yields the unique ascending
enumeration); the loop threads `returnVal`, starting from the fresh
empty map; the epilogue applies the `removeList`. -/
def runHooks (h : HookConfig) (hookType : HookType) (args : Sig) (pol : Policy) :
    RunOut :=
  mkRunOut h hookType
    (runLoop (getHook h hookType) hookType args pol
      (List.insertionSort (· ≤ ·) ((getHook h hookType).map Prod.fst)) true [] [] [])

/-- Whether an outcome is a normal return (no panic). -/
def isOkE (e : Except String Sig) : Bool :=
  match e with
  | .ok _ => true
  | .error _ => false

/-! ## Upstream client -/

/-- Embedding of the `Client` record.  The zerolog logger is an
effect sink the embedding drops; `conn` is the embedded `net.Conn`,
with `none` for Go's nil interface. -/
structure Client : Type where
  id : String
  network : String
  address : String
  receiveBufferSize : Nat
  conn : Option Nat
  deriving DecidableEq, Repr

/-- A `Client` with every field at its zero value. -/
def zeroClient : Client := ⟨"", "", "", 0, none⟩

/-- Embedding of `Client.Close`: the underlying connection is closed
when it is non-nil (the `Bool` records whether `Conn.Close()` ran),
and every field is set to its zero value. -/
def closeClient (c : Client) : Client × Bool :=
  (zeroClient, c.conn.isSome)

/-! ## Proxy -/

/-- The error taxonomy of `errors.go`, plus the wrapped pool error
`Disconnect` can return. -/
inductive GErr : Type
  | PoolExhausted | ClientNotFound | ClientNotConnected | PutFailed | SendFailed
  deriving DecidableEq, Repr

/-- A Go call outcome: a normal value, a returned `error`, or a panic. -/
inductive Outcome (α : Type) : Type
  | ok (a : α)
  | errv (e : GErr)
  | panicked (msg : String)
  deriving DecidableEq, Repr

/-- Whether an outcome is a panic. -/
def isPanicO {α : Type} (o : Outcome α) : Bool :=
  match o with
  | .panicked _ => true
  | _ => false

/-- Embedding of `ProxyImpl`.  The available pool is the keyed
container of §4.2 — its implementation is not under src/, so it is
modelled from the spec as an association list keyed by client id —
and `connClients` is the busy map; its values are `*Client`, which
can be a nil pointer (`none`). -/
structure ProxyState : Type where
  pool : List (String × Client)
  connClients : List (Nat × Option Client)
  elastic : Bool
  reuseElasticClients : Bool
  bufferSize : Nat
  deriving DecidableEq, Repr

/-- Modelled from the spec: `Pool.Put` (§4.2) inserts a client under
its id and rejects duplicate ids. -/
def poolPut (pool : List (String × Client)) (c : Client) :
    Except String (List (String × Client)) :=
  if (alookup pool c.id).isSome then .error "client already exists"
  else .ok (pool ++ [(c.id, c)])

/-- Embedding of `Reconnect(cl)`: close the old client when it is
non-nil and non-terminal (`cl.ID != ""`), then dial a new one from
the template.  The dial is the `net.Dial` of `NewClient`, supplied as
the oracle `dial` (`none` when the dial fails, making `NewClient`
return nil).  The second component lists the ids of clients closed. -/
def reconnect (cl : Option Client) (dial : Option Client) :
    Option Client × List String :=
  match cl with
  | some c => if c.id ≠ "" then (dial, [c.id]) else (dial, [])
  | none => (dial, [])

/-- Result of `Connect`: the returned error (if any), the state after
the call, and whether a fresh client was dialed. -/
structure ConnectOut : Type where
  res : Outcome Unit
  st : ProxyState
  dialed : Bool
  deriving DecidableEq, Repr

/-- The tail of `Connect` from the `client.ID != ""` test: store the
client into the busy map, or fail with `ErrClientNotConnected`. -/
def assignClient (st : ProxyState) (c : Client) (g : Nat) (dialed : Bool) :
    ConnectOut :=
  if c.id ≠ "" then
    ⟨.ok (), { st with connClients := ainsert st.connClients g (some c) }, dialed⟩
  else
    ⟨.errv .ClientNotConnected, st, dialed⟩

/-- Embedding of `Connect(gconn)`.  With an empty pool: in elastic
mode a fresh client is dialed (and the debug log dereferences
`client.ID`, a panic when the dial returned nil); in fixed mode the
call fails with `ErrPoolExhausted`.  Otherwise the client stored
under the first pool id is popped. -/
def connect (st : ProxyState) (dial : Option Client) (g : Nat) : ConnectOut :=
  match st.pool with
  | [] =>
    if st.elastic then
      match dial with
      | none => ⟨.panicked "invalid memory address or nil pointer dereference", st, true⟩
      | some c => assignClient st c g true
    else ⟨.errv .PoolExhausted, st, false⟩
  | (_, c0) :: restPool =>
    assignClient { st with pool := restPool } c0 g false

/-- The tail of `Disconnect`'s reconnect branch: put the fresh client
back in the pool when it is non-nil and connected, wrapping a failed
`Put` into a returned error. -/
def disconnectReturn (st1 : ProxyState) (client2 : Option Client) :
    Outcome ProxyState :=
  match client2 with
  | some c =>
    if c.id ≠ "" then
      match poolPut st1.pool c with
      | .ok pool2 => .ok { st1 with pool := pool2 }
      | .error _ => .errv .PutFailed
    else .ok st1
  | none => .ok st1

/-- Embedding of `Disconnect(gconn)`.  The busy-map value for `gconn`
(`none` when the entry is missing or holds a nil `*Client`) is
removed; in fixed mode or elastic-with-reuse mode the client is
passed to `Reconnect` (which tolerates nil) and the result put back
in the pool; otherwise `client.Close()` dereferences the pointer — a
panic when it is nil.  The second component lists the ids of clients
closed. -/
def disconnect (st : ProxyState) (dial : Option Client) (g : Nat) :
    Outcome ProxyState × List String :=
  let client : Option Client :=
    match alookup st.connClients g with
    | some v => v
    | none => none
  let st1 := { st with connClients := aerase st.connClients g }
  if st.elastic && st.reuseElasticClients || !st.elastic then
    let rec1 := reconnect client dial
    (disconnectReturn st1 rec1.1, rec1.2)
  else
    match client with
    | none => (.panicked "invalid memory address or nil pointer dereference", [])
    | some c => (.ok st1, [c.id])

/-- The kind of error `Client.Receive` reported: none, `io.EOF`, or
any other error. -/
inductive RecvKind : Type
  | okRecv | eofRecv | otherErr
  deriving DecidableEq, Repr

/-- The network environment of one `PassThrough` call: the bytes read
from the inbound connection, whether `Client.Send` succeeded, the
`Client.Receive` triple, and the result of the dial `Reconnect`
performs. -/
structure NetOracle : Type where
  readBuf : List Nat
  sendOk : Bool
  recvSize : Nat
  recvBuf : List Nat
  recvKind : RecvKind
  dial : Option Client
  deriving DecidableEq, Repr

/-- Result of `PassThrough`: the returned error (if any), the state
after the call, the ids of clients closed, and the byte buffers
written back to the inbound connection. -/
structure PTOut : Type where
  res : Outcome Unit
  st : ProxyState
  closed : List String
  wrote : List (List Nat)
  deriving DecidableEq, Repr

/-- Embedding of `PassThrough(gconn, ...)`.  A missing busy-map entry
fails with `ErrClientNotFound`; a nil stored `*Client` panics at
`client.Send`.  Otherwise: read from the inbound, send upstream
(returning the send error on failure), receive; on a clean receive or
a non-EOF error the first `size` response bytes are written back to
the inbound; on EOF the client is reconnected and the busy-map entry
replaced with the new client.  The two traffic callbacks only have
their errors logged, an effect the embedding drops. -/
def passThrough (st : ProxyState) (g : Nat) (o : NetOracle) : PTOut :=
  match alookup st.connClients g with
  | none => ⟨.errv .ClientNotFound, st, [], []⟩
  | some none => ⟨.panicked "invalid memory address or nil pointer dereference", st, [], []⟩
  | some (some c) =>
    if o.sendOk = false then ⟨.errv .SendFailed, st, [], []⟩
    else
      let response := o.recvBuf.take o.recvSize
      match o.recvKind with
      | .okRecv => ⟨.ok (), st, [], [response]⟩
      | .eofRecv =>
        let rec1 := reconnect (some c) o.dial
        ⟨.ok (), { st with connClients := ainsert st.connClients g rec1.1 }, rec1.2, []⟩
      | .otherErr => ⟨.ok (), st, [], [response]⟩

/-! ## Concrete instances used by the witnesses -/

/-- An invoker that introduces a key absent from the input. -/
def hookBad : HookDef := fun _ => [("extra", Val.vnum 1)]

/-- An invoker that returns its input unchanged. -/
def hookEcho : HookDef := fun s => s

/-- Two invokers registered on `OnOpened` at priorities 1 and 2. -/
def cfgTwo : HookConfig := ⟨[(HookType.OnOpened, [(1, hookBad), (2, hookEcho)])]⟩

/-- A one-key traffic envelope. -/
def argsReq : Sig := [("request", Val.vbytes [120])]

/-- The trace row `hookBad` produces on `argsReq`. -/
def entryBad : TEntry := ⟨1, [("extra", Val.vnum 1)], false⟩

def stFixedEmpty : ProxyState := ⟨[], [], false, false, 4096⟩

def stElasticNoReuse : ProxyState := ⟨[], [], true, false, 4096⟩

def clientOld : Client := ⟨"id1", "tcp", "localhost:5432", 8192, some 1⟩

def clientNew : Client := ⟨"id2", "tcp", "localhost:5432", 8192, some 2⟩

def stBusy : ProxyState := ⟨[], [(7, some clientOld)], false, false, 4096⟩

def oracleEof : NetOracle := ⟨[112], true, 0, [], RecvKind.eofRecv, some clientNew⟩

/-! ## Map lemmas -/

theorem alookup_isSome_iff {κ α : Type} [DecidableEq κ] (m : List (κ × α)) (k : κ) :
    (alookup m k).isSome = true ↔ k ∈ m.map Prod.fst := by
  induction m with
  | nil => simp [alookup]
  | cons kv rest ih =>
    by_cases hk : kv.1 = k
    · simp [alookup, hk]
    · simp [alookup, hk, ih, Ne.symm hk]

theorem alookup_eq_none_iff {κ α : Type} [DecidableEq κ] (m : List (κ × α)) (k : κ) :
    alookup m k = none ↔ k ∉ m.map Prod.fst := by
  rw [← alookup_isSome_iff]
  cases alookup m k <;> simp

theorem aerase_keys_subset {κ α : Type} [DecidableEq κ] (m : List (κ × α)) (q k : κ) :
    k ∈ (aerase m q).map Prod.fst → k ∈ m.map Prod.fst := by
  intro hmem
  simp only [aerase, List.mem_map, List.mem_filter] at hmem
  rcases hmem with ⟨kv, ⟨hkv, _⟩, hfst⟩
  exact List.mem_map.mpr ⟨kv, hkv, hfst⟩

theorem aerase_lookup_self {κ α : Type} [DecidableEq κ] (m : List (κ × α)) (k : κ) :
    alookup (aerase m k) k = none := by
  rw [alookup_eq_none_iff]
  intro hmem
  simp only [aerase, List.mem_map, List.mem_filter] at hmem
  rcases hmem with ⟨kv, ⟨_, hkeep⟩, hfst⟩
  rw [hfst] at hkeep
  simp at hkeep

theorem aerase_lookup_none {κ α : Type} [DecidableEq κ] (m : List (κ × α)) (q k : κ)
    (hnone : alookup m k = none) : alookup (aerase m q) k = none := by
  rw [alookup_eq_none_iff] at hnone ⊢
  exact fun hmem => hnone (aerase_keys_subset m q k hmem)

theorem amodify_cons {κ α : Type} [DecidableEq κ] (kv : κ × α) (rest : List (κ × α))
    (k : κ) (f : α → α) :
    amodify (kv :: rest) k f =
      (if kv.1 = k then (kv.1, f kv.2) else kv) :: amodify rest k f := by
  simp [amodify]

theorem amodify_lookup_self {κ α : Type} [DecidableEq κ] (m : List (κ × α)) (k : κ)
    (f : α → α) : alookup (amodify m k f) k = (alookup m k).map f := by
  induction m with
  | nil => simp [alookup, amodify]
  | cons kv rest ih =>
    simp only [amodify] at ih ⊢
    simp only [List.map_cons, alookup]
    by_cases hk : kv.1 = k
    · simp [hk]
    · simp [hk, ih]

theorem amodify_lookup_ne {κ α : Type} [DecidableEq κ] (m : List (κ × α)) (k k' : κ)
    (f : α → α) (hne : k ≠ k') : alookup (amodify m k f) k' = alookup m k' := by
  induction m with
  | nil => simp [alookup, amodify]
  | cons kv rest ih =>
    simp only [amodify] at ih ⊢
    simp only [List.map_cons, alookup]
    by_cases hk : kv.1 = k
    · simp [hk, hne, ih]
    · by_cases hk' : kv.1 = k' <;> simp [hk, hk', ih, Ne.symm hne]

theorem ainsert_lookup_self {κ α : Type} [DecidableEq κ] (m : List (κ × α)) (k : κ)
    (v : α) : alookup (ainsert m k v) k = some v := by
  simp [ainsert, alookup]

/-! ## verify: acceptance is exactly key closure -/

theorem sigHasKey_iff (s : Sig) (k : String) :
    sigHasKey s k = true ↔ k ∈ s.map Prod.fst := by
  unfold sigHasKey sigLookup
  exact alookup_isSome_iff s k

theorem verify_eq_true_iff (params ret : Sig) :
    verify params ret = true ↔
      ∀ k, sigHasKey ret k = true → sigHasKey params k = true := by
  unfold verify
  rw [List.all_eq_true]
  constructor
  · intro h k hk
    rw [sigHasKey_iff] at hk
    rcases List.mem_map.mp hk with ⟨kv, hkv, hfst⟩
    exact hfst ▸ h kv hkv
  · intro h kv hkv
    exact h kv.1 ((sigHasKey_iff ret kv.1).mpr (List.mem_map.mpr ⟨kv, hkv, rfl⟩))

/-! ## The RunHooks loop: trace shape -/

/-- The priorities the loop invokes extend the accumulated trace by a
prefix of the remaining priority list. -/
theorem runLoop_trace_extends (inner : List (Nat × HookDef)) (hookType : HookType)
    (args : Sig) (pol : Policy) :
    ∀ (prios : List Nat) (first : Bool) (rv : Sig) (rl : List Nat) (tr : List TEntry),
      ∃ t, ((runLoop inner hookType args pol prios first rv rl tr).trace).map TEntry.prio
            ++ t = tr.map TEntry.prio ++ prios := by
  intro prios
  induction prios with
  | nil =>
    intro first rv rl tr
    exact ⟨[], by simp [runLoop]⟩
  | cons p rest ih =>
    intro first rv rl tr
    simp only [runLoop]
    cases hf : alookup inner p with
    | none => exact ⟨p :: rest, by simp⟩
    | some f =>
      simp only []
      by_cases hacc : verify args (f (if first then args else rv)) = true
      · simp only [hacc, if_true]
        rcases ih false (f (if first then args else rv)) rl
            (tr ++ [⟨p, f (if first then args else rv), true⟩])
          with ⟨t, ht⟩
        refine ⟨t, ?_⟩
        rw [ht]
        simp
      · simp only [if_neg hacc]
        cases pol with
        | Ignore =>
          by_cases hcl : hookType = HookType.OnConfigLoaded
          · simp only [hcl, if_true]
            exact ⟨rest, by simp⟩
          · simp only [if_neg hcl]
            rcases ih false (if first then args else rv) rl
                (tr ++ [⟨p, f (if first then args else rv), verify args (f (if first then args else rv))⟩])
              with ⟨t, ht⟩
            refine ⟨t, ?_⟩
            rw [ht]
            simp
        | Abort =>
          by_cases hcl : hookType = HookType.OnConfigLoaded
          · simp only [hcl, if_true]
            exact ⟨rest, by simp⟩
          · simp only [if_neg hcl]
            exact ⟨rest, by simp⟩
        | Remove =>
          by_cases hcl : hookType = HookType.OnConfigLoaded
          · simp only [hcl, if_true]
            exact ⟨rest, by simp⟩
          · simp only [if_neg hcl]
            rcases ih false (if first then args else rv) (rl ++ [p])
                (tr ++ [⟨p, f (if first then args else rv), verify args (f (if first then args else rv))⟩])
              with ⟨t, ht⟩
            refine ⟨t, ?_⟩
            rw [ht]
            simp

theorem mkRunOut_trace (h : HookConfig) (hookType : HookType) (lo : LoopOut) :
    (mkRunOut h hookType lo).trace = lo.trace := by
  unfold mkRunOut
  split
  · rfl
  · split <;> rfl

theorem mkRunOut_outcome (h : HookConfig) (hookType : HookType) (lo : LoopOut) :
    (mkRunOut h hookType lo).outcome = lo.out := by
  unfold mkRunOut
  split
  · next m heq => exact heq.symm
  · next v heq => split <;> exact heq.symm

theorem mkRunOut_removed (h : HookConfig) (hookType : HookType) (lo : LoopOut) :
    (mkRunOut h hookType lo).removed = lo.removeList := by
  unfold mkRunOut
  split
  · rfl
  · split <;> rfl

/-- The trace of `runHooks` is the trace of its loop. -/
theorem runHooks_trace_eq (h : HookConfig) (hookType : HookType) (args : Sig)
    (pol : Policy) :
    (runHooks h hookType args pol).trace =
      (runLoop (getHook h hookType) hookType args pol
        (List.insertionSort (· ≤ ·) ((getHook h hookType).map Prod.fst))
        true [] [] []).trace := by
  unfold runHooks
  exact mkRunOut_trace _ _ _

/-! ## C2: invocations are ordered by ascending priority -/

/-- C2.  Within one `RunHooks` invocation the invokers are called in
non-decreasing priority order: the sequence of invoked priorities is
sorted, so an invoker registered at a lower priority value is never
preceded by one registered at a higher value. -/
theorem runHooks_calls_sorted (h : HookConfig) (hookType : HookType) (args : Sig)
    (pol : Policy) :
    List.Sorted (· ≤ ·) (((runHooks h hookType args pol).trace).map TEntry.prio) := by
  rw [runHooks_trace_eq]
  rcases runLoop_trace_extends (getHook h hookType) hookType args pol
      (List.insertionSort (· ≤ ·) ((getHook h hookType).map Prod.fst)) true [] [] []
    with ⟨t, ht⟩
  simp only [List.map_nil, List.nil_append] at ht
  have hsub := List.sublist_append_left
    (((runLoop (getHook h hookType) hookType args pol
      (List.insertionSort (· ≤ ·) ((getHook h hookType).map Prod.fst))
      true [] [] []).trace).map TEntry.prio) t
  rw [ht] at hsub
  exact List.Pairwise.sublist hsub
    (List.sorted_insertionSort (· ≤ ·) ((getHook h hookType).map Prod.fst))

/-! ## C1: acceptance is exactly key closure against the input -/

/-- Every row of the loop's trace records as `accepted` exactly the
value of `verify args result`. -/
theorem runLoop_trace_accepted (inner : List (Nat × HookDef)) (hookType : HookType)
    (args : Sig) (pol : Policy) :
    ∀ (prios : List Nat) (first : Bool) (rv : Sig) (rl : List Nat) (tr : List TEntry),
      (∀ e ∈ tr, e.accepted = verify args e.result) →
      ∀ e ∈ (runLoop inner hookType args pol prios first rv rl tr).trace,
        e.accepted = verify args e.result := by
  intro prios
  induction prios with
  | nil =>
    intro first rv rl tr hinv
    simpa [runLoop] using hinv
  | cons p rest ih =>
    intro first rv rl tr hinv
    have hinv' : ∀ e ∈ tr ++
        [⟨p, (match alookup inner p with
              | some f => f
              | none => fun s => s) (if first then args else rv),
          verify args ((match alookup inner p with
              | some f => f
              | none => fun s => s) (if first then args else rv))⟩],
        TEntry.accepted e = verify args e.result := by
      intro e he
      rcases List.mem_append.mp he with hl | hr
      · exact hinv e hl
      · rcases List.mem_singleton.mp hr with rfl
        rfl
    simp only [runLoop]
    cases hf : alookup inner p with
    | none =>
      intro e he
      exact hinv e he
    | some f =>
      rw [hf] at hinv'
      simp only [] at hinv' ⊢
      by_cases hacc : verify args (f (if first then args else rv)) = true
      · simp only [hacc, if_true]
        refine ih false (f (if first then args else rv)) rl _ ?_
        intro e he
        rcases List.mem_append.mp he with hl | hr
        · exact hinv e hl
        · rcases List.mem_singleton.mp hr with rfl
          exact hacc.symm
      · simp only [if_neg hacc]
        have hnewinv : ∀ e ∈ tr ++ [⟨p, f (if first then args else rv),
            verify args (f (if first then args else rv))⟩],
            TEntry.accepted e = verify args e.result := by
          intro e he
          rcases List.mem_append.mp he with hl | hr
          · exact hinv e hl
          · rcases List.mem_singleton.mp hr with rfl
            rfl
        cases pol with
        | Ignore =>
          by_cases hcl : hookType = HookType.OnConfigLoaded
          · simp only [hcl, if_true]
            exact hnewinv
          · simp only [if_neg hcl]
            exact ih false (if first then args else rv) rl _ hnewinv
        | Abort =>
          by_cases hcl : hookType = HookType.OnConfigLoaded
          · simp only [hcl, if_true]
            exact hnewinv
          · simp only [if_neg hcl]
            exact hnewinv
        | Remove =>
          by_cases hcl : hookType = HookType.OnConfigLoaded
          · simp only [hcl, if_true]
            exact hnewinv
          · simp only [if_neg hcl]
            exact ih false (if first then args else rv) (rl ++ [p]) _ hnewinv

/-- C1.  `RunHooks` accepts an invoker's result — recording it as the
accumulated envelope and candidate return value — exactly when every
key present in the result is also a key of the original input `args`:
every trace row is accepted iff its result's keys are closed under
the input's keys. -/
theorem runHooks_accepts_iff_keys_closed (h : HookConfig) (hookType : HookType)
    (args : Sig) (pol : Policy) (e : TEntry)
    (hmem : e ∈ (runHooks h hookType args pol).trace) :
    e.accepted = true ↔
      ∀ k, sigHasKey e.result k = true → sigHasKey args k = true := by
  rw [runHooks_trace_eq] at hmem
  have hacc := runLoop_trace_accepted (getHook h hookType) hookType args pol
    (List.insertionSort (· ≤ ·) ((getHook h hookType).map Prod.fst)) true [] [] []
    (by intro e he; cases he) e hmem
  rw [hacc]
  exact verify_eq_true_iff args e.result

/-! ## C6: a panic happens exactly for a verification failure on OnConfigLoaded -/

/-- Characterization of the loop's outcome: when every listed
priority is present in the inner map, the loop panics iff the hook
type is `OnConfigLoaded` and some invocation failed verification. -/
theorem runLoop_ok_char (inner : List (Nat × HookDef)) (hookType : HookType)
    (args : Sig) (pol : Policy) :
    ∀ (prios : List Nat) (first : Bool) (rv : Sig) (rl : List Nat) (tr : List TEntry),
      (∀ p ∈ prios, (alookup inner p).isSome = true) →
      (hookType = HookType.OnConfigLoaded → tr.any (fun e => !e.accepted) = false) →
      isOkE (runLoop inner hookType args pol prios first rv rl tr).out =
        !(decide (hookType = HookType.OnConfigLoaded) &&
          ((runLoop inner hookType args pol prios first rv rl tr).trace.any
            (fun e => !e.accepted))) := by
  intro prios
  induction prios with
  | nil =>
    intro first rv rl tr _ hinv
    by_cases hcl : hookType = HookType.OnConfigLoaded
    · simp [runLoop, isOkE, hcl, hinv hcl]
    · simp [runLoop, isOkE, hcl]
  | cons p rest ih =>
    intro first rv rl tr hsome hinv
    have hp : (alookup inner p).isSome = true := hsome p (List.mem_cons_self p rest)
    simp only [runLoop]
    cases hf : alookup inner p with
    | none => rw [hf] at hp; simp at hp
    | some f =>
      simp only []
      by_cases hacc : verify args (f (if first then args else rv)) = true
      · simp only [hacc, if_true]
        refine ih false (f (if first then args else rv)) rl _
          (fun q hq => hsome q (List.mem_cons_of_mem p hq)) ?_
        intro hcl
        simp [List.any_append, hinv hcl, hacc]
      · simp only [if_neg hacc]
        have haccf : verify args (f (if first then args else rv)) = false :=
          eq_false_of_ne_true hacc
        cases pol with
        | Ignore =>
          by_cases hcl : hookType = HookType.OnConfigLoaded
          · simp [hcl, isOkE, List.any_append, haccf]
          · simp only [if_neg hcl]
            refine ih false (if first then args else rv) rl _
              (fun q hq => hsome q (List.mem_cons_of_mem p hq)) ?_
            intro hcl'
            exact absurd hcl' hcl
        | Abort =>
          by_cases hcl : hookType = HookType.OnConfigLoaded
          · simp [hcl, isOkE, List.any_append, haccf]
          · simp [if_neg hcl, isOkE, hcl]
        | Remove =>
          by_cases hcl : hookType = HookType.OnConfigLoaded
          · simp [hcl, isOkE, List.any_append, haccf]
          · simp only [if_neg hcl]
            refine ih false (if first then args else rv) (rl ++ [p]) _
              (fun q hq => hsome q (List.mem_cons_of_mem p hq)) ?_
            intro hcl'
            exact absurd hcl' hcl

/-- C6.  `RunHooks` panics exactly when the hook type is
`OnConfigLoaded` and some invocation failed verification, under every
verification policy; for every other hook type the run returns
normally (the failure is only logged). -/
theorem runHooks_panic_characterization (h : HookConfig) (hookType : HookType)
    (args : Sig) (pol : Policy) :
    isOkE (runHooks h hookType args pol).outcome =
      !(decide (hookType = HookType.OnConfigLoaded) &&
        ((runHooks h hookType args pol).trace.any (fun e => !e.accepted))) := by
  have hsome : ∀ p ∈ List.insertionSort (· ≤ ·) ((getHook h hookType).map Prod.fst),
      (alookup (getHook h hookType) p).isSome = true := by
    intro p hp
    exact (alookup_isSome_iff _ _).mpr ((List.mem_insertionSort (· ≤ ·)).mp hp)
  have hchar := runLoop_ok_char (getHook h hookType) hookType args pol
    (List.insertionSort (· ≤ ·) ((getHook h hookType).map Prod.fst)) true [] [] []
    hsome (by intro _; rfl)
  unfold runHooks
  rw [mkRunOut_outcome, mkRunOut_trace]
  exact hchar

/-! ## C5: failed invokers are removed under the Remove policy -/

/-- The loop only appends to the `removeList` it is given. -/
theorem runLoop_rl_extends (inner : List (Nat × HookDef)) (hookType : HookType)
    (args : Sig) (pol : Policy) :
    ∀ (prios : List Nat) (first : Bool) (rv : Sig) (rl : List Nat) (tr : List TEntry),
      ∃ l, (runLoop inner hookType args pol prios first rv rl tr).removeList = rl ++ l := by
  intro prios
  induction prios with
  | nil =>
    intro first rv rl tr
    exact ⟨[], by simp [runLoop]⟩
  | cons p rest ih =>
    intro first rv rl tr
    simp only [runLoop]
    cases hf : alookup inner p with
    | none => exact ⟨[], by simp⟩
    | some f =>
      simp only []
      by_cases hacc : verify args (f (if first then args else rv)) = true
      · simp only [hacc, if_true]
        exact ih false (f (if first then args else rv)) rl _
      · simp only [if_neg hacc]
        cases pol with
        | Ignore =>
          by_cases hcl : hookType = HookType.OnConfigLoaded
          · simp only [hcl, if_true]
            exact ⟨[], by simp⟩
          · simp only [if_neg hcl]
            exact ih false (if first then args else rv) rl _
        | Abort =>
          by_cases hcl : hookType = HookType.OnConfigLoaded
          · simp only [hcl, if_true]
            exact ⟨[], by simp⟩
          · simp only [if_neg hcl]
            exact ⟨[], by simp⟩
        | Remove =>
          by_cases hcl : hookType = HookType.OnConfigLoaded
          · simp only [hcl, if_true]
            exact ⟨[], by simp⟩
          · simp only [if_neg hcl]
            rcases ih false (if first then args else rv) (rl ++ [p]) _ with ⟨l, hl⟩
            exact ⟨p :: l, by simpa using hl⟩

/-- Under a policy other than `Abort` the loop never takes the early
return. -/
theorem runLoop_not_early (inner : List (Nat × HookDef)) (hookType : HookType)
    (args : Sig) (pol : Policy) (hpol : pol ≠ Policy.Abort) :
    ∀ (prios : List Nat) (first : Bool) (rv : Sig) (rl : List Nat) (tr : List TEntry),
      (runLoop inner hookType args pol prios first rv rl tr).early = false := by
  intro prios
  induction prios with
  | nil =>
    intro first rv rl tr
    simp [runLoop]
  | cons p rest ih =>
    intro first rv rl tr
    simp only [runLoop]
    cases hf : alookup inner p with
    | none => simp
    | some f =>
      simp only []
      by_cases hacc : verify args (f (if first then args else rv)) = true
      · simp only [hacc, if_true]
        exact ih false (f (if first then args else rv)) rl _
      · simp only [if_neg hacc]
        cases pol with
        | Ignore =>
          by_cases hcl : hookType = HookType.OnConfigLoaded
          · simp [hcl]
          · simp only [if_neg hcl]
            exact ih false (if first then args else rv) rl _
        | Abort => exact absurd rfl hpol
        | Remove =>
          by_cases hcl : hookType = HookType.OnConfigLoaded
          · simp [hcl]
          · simp only [if_neg hcl]
            exact ih false (if first then args else rv) (rl ++ [p]) _

/-- Under the `Remove` policy, in a run that returns normally, the
priority of every trace row that failed verification ends up in the
final `removeList`. -/
theorem runLoop_fail_mem (inner : List (Nat × HookDef)) (hookType : HookType)
    (args : Sig) :
    ∀ (prios : List Nat) (first : Bool) (rv : Sig) (rl : List Nat) (tr : List TEntry),
      (∀ e ∈ tr, e.accepted = false → e.prio ∈ rl) →
      isOkE (runLoop inner hookType args Policy.Remove prios first rv rl tr).out = true →
      ∀ e ∈ (runLoop inner hookType args Policy.Remove prios first rv rl tr).trace,
        e.accepted = false →
        e.prio ∈ (runLoop inner hookType args Policy.Remove prios first rv rl tr).removeList := by
  intro prios
  induction prios with
  | nil =>
    intro first rv rl tr hinv _ e he hfail
    simp only [runLoop] at he ⊢
    exact hinv e he hfail
  | cons p rest ih =>
    intro first rv rl tr hinv hok
    simp only [runLoop] at hok ⊢
    cases hf : alookup inner p with
    | none =>
      rw [hf] at hok
      simp [isOkE] at hok
    | some f =>
      rw [hf] at hok
      simp only [] at hok ⊢
      by_cases hacc : verify args (f (if first then args else rv)) = true
      · simp only [hacc, if_true] at hok ⊢
        refine ih false (f (if first then args else rv)) rl _ ?_ hok
        intro e he hfail
        rcases List.mem_append.mp he with hl | hr
        · exact hinv e hl hfail
        · rcases List.mem_singleton.mp hr with rfl
          simp at hfail
      · simp only [if_neg hacc] at hok ⊢
        by_cases hcl : hookType = HookType.OnConfigLoaded
        · rw [if_pos hcl] at hok
          simp [isOkE] at hok
        · rw [if_neg hcl] at hok ⊢
          refine ih false (if first then args else rv) (rl ++ [p]) _ ?_ hok
          intro e he hfail
          rcases List.mem_append.mp he with hl | hr
          · exact List.mem_append.mpr (Or.inl (hinv e hl hfail))
          · rcases List.mem_singleton.mp hr with rfl
            exact List.mem_append.mpr (Or.inr (List.mem_singleton.mpr rfl))

theorem mkRunOut_hooksAfter (h : HookConfig) (hookType : HookType) (lo : LoopOut)
    (hok : isOkE lo.out = true) (hearly : lo.early = false) :
    (mkRunOut h hookType lo).hooksAfter =
      lo.removeList.foldl (fun acc p => amodify acc hookType (fun im => aerase im p))
        h.hooks := by
  unfold mkRunOut
  split
  · next m heq => rw [heq] at hok; simp [isOkE] at hok
  · next v heq => simp [hearly]

/-- Looking up the modified hook type after the removal fold yields
the inner map with every removed priority erased. -/
theorem fold_amodify_lookup (hookType : HookType) :
    ∀ (rl : List Nat) (hooks : List (HookType × List (Nat × HookDef))),
      alookup (rl.foldl (fun acc p => amodify acc hookType (fun im => aerase im p)) hooks)
          hookType =
        (alookup hooks hookType).map
          (fun im => rl.foldl (fun im q => aerase im q) im) := by
  intro rl
  induction rl with
  | nil =>
    intro hooks
    cases hv : alookup hooks hookType <;> simp [hv]
  | cons q rest ih =>
    intro hooks
    rw [List.foldl_cons, ih, amodify_lookup_self]
    cases hv : alookup hooks hookType <;> simp [hv]

theorem foldl_aerase_preserved {α : Type} (p : Nat) :
    ∀ (rl : List Nat) (im : List (Nat × α)),
      alookup im p = none → alookup (rl.foldl (fun im q => aerase im q) im) p = none := by
  intro rl
  induction rl with
  | nil => intro im h; simpa using h
  | cons q rest ih =>
    intro im h
    rw [List.foldl_cons]
    exact ih (aerase im q) (aerase_lookup_none im q p h)

theorem foldl_aerase_mem {α : Type} (p : Nat) :
    ∀ (rl : List Nat) (im : List (Nat × α)),
      p ∈ rl → alookup (rl.foldl (fun im q => aerase im q) im) p = none := by
  intro rl
  induction rl with
  | nil => intro im h; cases h
  | cons q rest ih =>
    intro im h
    rw [List.foldl_cons]
    rcases List.mem_cons.mp h with rfl | hmem
    · exact foldl_aerase_preserved p rest (aerase im p) (aerase_lookup_self im p)
    · exact ih (aerase im q) hmem

/-- A priority absent from the registered inner map is never invoked
by `runHooks`. -/
theorem runHooks_not_called_of_absent (h : HookConfig) (hookType : HookType)
    (args : Sig) (pol : Policy) (p : Nat)
    (habsent : alookup (getHook h hookType) p = none) :
    p ∉ ((runHooks h hookType args pol).trace).map TEntry.prio := by
  intro hmem
  rw [runHooks_trace_eq] at hmem
  rcases runLoop_trace_extends (getHook h hookType) hookType args pol
      (List.insertionSort (· ≤ ·) ((getHook h hookType).map Prod.fst)) true [] [] []
    with ⟨t, ht⟩
  simp only [List.map_nil, List.nil_append] at ht
  have hp : p ∈ List.insertionSort (· ≤ ·) ((getHook h hookType).map Prod.fst) := by
    rw [← ht]
    exact List.mem_append.mpr (Or.inl hmem)
  have hkeys : p ∈ (getHook h hookType).map Prod.fst :=
    (List.mem_insertionSort (· ≤ ·)).mp hp
  rw [alookup_eq_none_iff] at habsent
  exact habsent hkeys

/-- C5.  Under `VerificationPolicy = Remove`, when an invoker fails
verification in a run that completes normally, its priority is
deleted from the hook table for that hook type, and a subsequent
`RunHooks` on the resulting table — for any input and policy — never
invokes it. -/
theorem runHooks_remove_policy (h : HookConfig) (hookType : HookType)
    (args args2 : Sig) (pol2 : Policy) (e : TEntry)
    (hmem : e ∈ (runHooks h hookType args Policy.Remove).trace)
    (hfail : e.accepted = false)
    (hok : isOkE (runHooks h hookType args Policy.Remove).outcome = true) :
    alookup (getHook ⟨(runHooks h hookType args Policy.Remove).hooksAfter⟩ hookType)
        e.prio = none ∧
      e.prio ∉
        ((runHooks ⟨(runHooks h hookType args Policy.Remove).hooksAfter⟩ hookType
          args2 pol2).trace).map TEntry.prio := by
  have hlem : alookup (getHook ⟨(runHooks h hookType args Policy.Remove).hooksAfter⟩
      hookType) e.prio = none := by
    have hokl : isOkE (runLoop (getHook h hookType) hookType args Policy.Remove
        (List.insertionSort (· ≤ ·) ((getHook h hookType).map Prod.fst))
        true [] [] []).out = true := by
      unfold runHooks at hok
      rwa [mkRunOut_outcome] at hok
    have hmeml : e ∈ (runLoop (getHook h hookType) hookType args Policy.Remove
        (List.insertionSort (· ≤ ·) ((getHook h hookType).map Prod.fst))
        true [] [] []).trace := by
      rwa [runHooks_trace_eq] at hmem
    have hprl := runLoop_fail_mem (getHook h hookType) hookType args
      (List.insertionSort (· ≤ ·) ((getHook h hookType).map Prod.fst))
      true [] [] [] (by intro e he; cases he) hokl e hmeml hfail
    have hafter : (runHooks h hookType args Policy.Remove).hooksAfter =
        (runLoop (getHook h hookType) hookType args Policy.Remove
          (List.insertionSort (· ≤ ·) ((getHook h hookType).map Prod.fst))
          true [] [] []).removeList.foldl
          (fun acc p => amodify acc hookType (fun im => aerase im p)) h.hooks := by
      unfold runHooks
      exact mkRunOut_hooksAfter h hookType _ hokl
        (runLoop_not_early (getHook h hookType) hookType args Policy.Remove
          (by intro hc; cases hc) _ true [] [] [])
    rw [hafter]
    unfold getHook
    rw [fold_amodify_lookup]
    cases hin : alookup h.hooks hookType with
    | none => simp [alookup]
    | some im =>
      simp only [Option.map_some, Option.getD_some]
      rw [show getHook h hookType = im from by simp [getHook, hin]] at hprl
      exact foldl_aerase_mem e.prio _ im hprl
  exact ⟨hlem, runHooks_not_called_of_absent _ _ args2 pol2 e.prio hlem⟩

/-! ## C3: the empty hook set -/

/-- C3 counterexample: with no hooks registered, `RunHooks` returns
the fresh empty `Signature`, which is not extensionally equal to the
(nonempty) input envelope — the returned envelope does not equal
`args`. -/
theorem runHooks_empty_not_input :
    (runHooks newHookConfig HookType.OnOpened [("a", Val.vnum 0)] Policy.Ignore).outcome
        = Except.ok [] ∧
      ¬ (∀ k, sigLookup ([] : Sig) k = sigLookup [("a", Val.vnum 0)] k) := by
  constructor
  · rfl
  · intro hall
    have hcontra := hall "a"
    simp [sigLookup, alookup] at hcontra

/-- C3 amended: with no hooks registered for the hook type,
`RunHooks` makes no invoker call, leaves the hook table unchanged,
and returns the empty `Signature` — which equals the input envelope
only when that envelope is itself empty. -/
theorem runHooks_empty_hookset (h : HookConfig) (hookType : HookType) (args : Sig)
    (pol : Policy) (hempty : getHook h hookType = []) :
    (runHooks h hookType args pol).outcome = Except.ok [] ∧
      (runHooks h hookType args pol).trace = [] ∧
      (runHooks h hookType args pol).hooksAfter = h.hooks := by
  unfold runHooks
  rw [hempty]
  exact ⟨rfl, rfl, rfl⟩

/-! ## C4: AddHook on a fresh table -/

/-- C4: `NewHookConfig` allocates only the outer map, so the write
`h.hooks[hookType][prio] = hookDef` inside `AddHook` is an assignment
into a nil inner map: for every hook type, priority and invoker, the
first registration panics instead of recording the invoker. -/
theorem addHook_fresh_config_panics (hookType : HookType) (prio : Nat) (f : HookDef) :
    addHook newHookConfig hookType prio (HookArg.hdef f) =
      Except.error "assignment to entry in nil map" := rfl

/-! ## C9: Client.Close is idempotent -/

/-- C9.  The first `Close` closes the underlying connection exactly
when one is present and zeroes every field (`ID`, `Conn`, `Address`,
`Network`, `ReceiveBufferSize`); a second `Close` on the result
closes nothing and leaves the record identical, so closing twice
equals closing once. -/
theorem closeClient_idempotent (c : Client) :
    (closeClient c).1.id = "" ∧ (closeClient c).1.conn = none ∧
      (closeClient c).1.address = "" ∧ (closeClient c).1.network = "" ∧
      (closeClient c).1.receiveBufferSize = 0 ∧
      (closeClient c).2 = c.conn.isSome ∧
      closeClient (closeClient c).1 = ((closeClient c).1, false) :=
  ⟨rfl, rfl, rfl, rfl, rfl, rfl, rfl⟩

/-! ## C7: fixed mode with an exhausted pool -/

/-- C7.  In fixed (non-elastic) mode, `Connect` on an empty pool
returns `ErrPoolExhausted` at once: the state (busy map included) is
unchanged and no client is dialed. -/
theorem connect_pool_exhausted (st : ProxyState) (dial : Option Client) (g : Nat)
    (helast : st.elastic = false) (hempty : st.pool = []) :
    connect st dial g = ⟨Outcome.errv GErr.PoolExhausted, st, false⟩ := by
  unfold connect
  rw [hempty, helast]
  rfl

theorem connect_pool_exhausted_witness :
    connect stFixedEmpty none 0 = ⟨Outcome.errv GErr.PoolExhausted, stFixedEmpty, false⟩ :=
  connect_pool_exhausted stFixedEmpty none 0 rfl rfl

/-! ## C10: Disconnect with no client assigned -/

theorem disconnectReturn_not_panic (st1 : ProxyState) (client2 : Option Client) :
    isPanicO (disconnectReturn st1 client2) = false := by
  cases client2 with
  | none => rfl
  | some c =>
    simp only [disconnectReturn]
    split
    · cases hput : poolPut st1.pool c <;> simp [isPanicO]
    · rfl

/-- C10.  When the busy map has no entry for the inbound connection,
`Disconnect` panics on the nil `*Client` exactly in
elastic-without-reuse mode (`client.Close()` dereferences nil); in
fixed mode or elastic-with-reuse mode `Reconnect`'s nil check
tolerates it and the call returns without panicking. -/
theorem disconnect_missing_entry (st : ProxyState) (dial : Option Client) (g : Nat)
    (hmiss : alookup st.connClients g = none) :
    isPanicO (disconnect st dial g).1 = (st.elastic && !st.reuseElasticClients) := by
  unfold disconnect
  rw [hmiss]
  cases he : st.elastic <;> cases hr : st.reuseElasticClients <;>
    simp [he, hr, disconnectReturn_not_panic, show ∀ m, isPanicO (Outcome.panicked m : Outcome ProxyState) = true from fun _ => rfl]

theorem disconnect_missing_entry_witness :
    isPanicO (disconnect stElasticNoReuse none 3).1 =
      (stElasticNoReuse.elastic && !stElasticNoReuse.reuseElasticClients) :=
  disconnect_missing_entry stElasticNoReuse none 3 rfl

/-! ## C8: upstream EOF during PassThrough -/

/-- C8.  When the upstream receive reports EOF during `PassThrough`,
the proxy reconnects: the old client (busy for this inbound, with a
non-empty id) is closed, and the busy-map entry for the inbound is
replaced with the freshly dialed client, whose id is new. -/
theorem passThrough_eof_reconnects (st : ProxyState) (g : Nat) (o : NetOracle)
    (c c' : Client)
    (hcl : alookup st.connClients g = some (some c))
    (hsend : o.sendOk = true)
    (heof : o.recvKind = RecvKind.eofRecv)
    (hdial : o.dial = some c')
    (hidOld : c.id ≠ "")
    (hidNew : c'.id ≠ c.id) :
    (passThrough st g o).res = Outcome.ok () ∧
      alookup (passThrough st g o).st.connClients g = some (some c') ∧
      c'.id ≠ c.id ∧
      (passThrough st g o).closed = [c.id] := by
  unfold passThrough
  rw [hcl]
  simp [hsend, heof, reconnect, hidOld, hdial, ainsert_lookup_self, hidNew]

theorem passThrough_eof_reconnects_witness :
    (passThrough stBusy 7 oracleEof).res = Outcome.ok () ∧
      alookup (passThrough stBusy 7 oracleEof).st.connClients 7 = some (some clientNew) ∧
      clientNew.id ≠ clientOld.id ∧
      (passThrough stBusy 7 oracleEof).closed = [clientOld.id] :=
  passThrough_eof_reconnects stBusy 7 oracleEof clientOld clientNew rfl rfl rfl rfl
    (by decide) (by decide)

/-! ## Witnesses for the hook-engine theorems with hypotheses -/

theorem runHooks_accepts_iff_keys_closed_witness :
    entryBad.accepted = true ↔
      (∀ k, sigHasKey entryBad.result k = true → sigHasKey argsReq k = true) :=
  runHooks_accepts_iff_keys_closed cfgTwo HookType.OnOpened argsReq Policy.Remove
    entryBad (by decide)

theorem runHooks_empty_hookset_witness :
    (runHooks newHookConfig HookType.OnNewPool [("a", Val.vnum 0)] Policy.Abort).outcome
        = Except.ok [] ∧
      (runHooks newHookConfig HookType.OnNewPool [("a", Val.vnum 0)] Policy.Abort).trace
        = [] ∧
      (runHooks newHookConfig HookType.OnNewPool [("a", Val.vnum 0)] Policy.Abort).hooksAfter
        = newHookConfig.hooks :=
  runHooks_empty_hookset newHookConfig HookType.OnNewPool [("a", Val.vnum 0)]
    Policy.Abort rfl

theorem runHooks_remove_policy_witness :
    alookup (getHook ⟨(runHooks cfgTwo HookType.OnOpened argsReq Policy.Remove).hooksAfter⟩
        HookType.OnOpened) entryBad.prio = none ∧
      entryBad.prio ∉
        ((runHooks ⟨(runHooks cfgTwo HookType.OnOpened argsReq Policy.Remove).hooksAfter⟩
          HookType.OnOpened argsReq Policy.Ignore).trace).map TEntry.prio :=
  runHooks_remove_policy cfgTwo HookType.OnOpened argsReq argsReq Policy.Ignore entryBad
    (by decide) rfl rfl

end GatewayD
